import Mathlib

/-!
Verification development for the model-describer repository
(`whitebox/base.py`, `whitebox/WhiteBox.py`).

The Python source is shallowly embedded below: pandas dataframes become
association lists from column names to cell lists, numeric columns become
lists of rationals, the stateful `WhiteBoxSensitivity._var_check` (which
writes a `diff` column onto the live `cat_df`) becomes an explicit
state-passing function, and fallible entry points (`__init__`, `run`,
`get_raw_df`, `get_agg_df`) return `Except`.  The fitted model's `predict`,
the standard deviation (irrational in general), and the configured
aggregate function are abstract parameters, exactly as they are injected
objects in the source.  Components of the repository that live in the
missing `whitebox/utils` package are modelled from the spec and marked as
such in their doc comments.
-/

/-- Cell of a pandas dataframe: numeric (rational stand-in for float) or a
categorical label. -/
inductive Cell where
  | q (x : ℚ)
  | s (v : String)
deriving DecidableEq, Repr

/-- Numeric view of a cell (categorical cells have no numeric content). -/
def Cell.asQ : Cell → ℚ
  | .q x => x
  | .s _ => 0

/-- Label view of a cell. -/
def Cell.asS : Cell → String
  | .q _ => ""
  | .s v => v

/-- Dataframe over cell type `α`: association list of named columns, in
column order, mirroring a pandas `DataFrame`. -/
abbrev DfT (α : Type) : Type := List (String × List α)

/-- Column extraction `df[n]`; a missing column reads as empty. -/
def getCol {α : Type} (df : DfT α) (n : String) : List α :=
  (df.lookup n).getD []

/-- Column assignment `df[n] = v`, with pandas semantics: an existing
column is updated in place (position kept), a new column is appended at
the end. -/
def setCol {α : Type} (df : DfT α) (n : String) (v : List α) : DfT α :=
  if (df.lookup n).isSome then
    df.map (fun p => if p.1 = n then (n, v) else p)
  else
    df ++ [(n, v)]

/-- Column drop `df.loc[:, ~df.columns.isin(names)]`. -/
def dropCols {α : Type} (df : DfT α) (names : List String) : DfT α :=
  df.filter (fun p => decide (p.1 ∉ names))

/-- Embedding of Python `sorted(list(set(l)))`: duplicates removed, then
sorted ascending. -/
def sortedDedup {α : Type} [LinearOrder α] [DecidableEq α] (l : List α) : List α :=
  List.insertionSort (· ≤ ·) l.dedup

/-- Embedding of `Series.mode().values[0]` (pandas returns the most
frequent values sorted ascending and the code takes the first): the
count-maximal element, smallest among ties; `dflt` is returned for an
empty list (pandas would raise there). -/
def pandasMode {α : Type} [LinearOrder α] [DecidableEq α] (dflt : α) (l : List α) : α :=
  ((sortedDedup l).argmax (fun x => l.count x)).getD dflt

/-- Embedding of `Series.max()` on a bucket column (buckets are nonempty
in the pipeline). -/
def listMaxQ (l : List ℚ) : ℚ :=
  match l with
  | [] => 0
  | x :: xs => xs.foldl max x

/-- Embedding of `Series.mean()` with pandas `skipna` defaults: `none`
models the float NaN a mean of an empty series produces. -/
def meanQ (l : List ℚ) : Option ℚ :=
  if l.length = 0 then none else some (l.sum / l.length)

/-- Application of the configured NaN-aware aggregate to a column that may
contain missing entries: pandas/numpy aggregates used by the source
(`np.mean` on a Series, `np.nanmedian`, spec section 4.3 "all aggregates
ignore rows with missing values") drop the missing entries first. -/
def nanAgg (agg : List ℚ → Option ℚ) (col : List (Option ℚ)) : Option ℚ :=
  agg (col.filterMap id)

/-- Embedding of the `errPos` column built by
`concat([errors[errors > 0], errors[errors < 0]], axis=1)` in
`WhiteBoxError._transform_function` (WhiteBox.py line 131): index-aligned
concatenation leaves a row's `errPos` entry missing (NaN) unless its error
is strictly positive. -/
def errPosCol (errs : List ℚ) : List (Option ℚ) :=
  errs.map (fun e => if 0 < e then some e else none)

/-- Embedding of the aligned `errNeg` column of the same `concat`: a row's
entry is missing unless its error is strictly negative. -/
def errNegCol (errs : List ℚ) : List (Option ℚ) :=
  errs.map (fun e => if e < 0 then some e else none)

/-- Embedding of `np.digitize(x, bins, right=True)` for a monotonically
increasing `bins` vector (base.py line 195): the index of the right-closed
interval `(bins[i-1], bins[i]]` containing `x`, equivalently the number of
cut-points strictly below `x`. -/
def digitizeRight (bins : List ℚ) (x : ℚ) : ℕ :=
  bins.countP (fun b => decide (b < x))

/-- Right-closed interval membership for a cut-point sequence `bins`:
bucket `k` holds the values `x` with `bins[k-1] < x ≤ bins[k]` (the two
edge buckets are open below index 0 and above the last cut-point). -/
def inBucket (bins : List ℚ) (k : ℕ) (x : ℚ) : Prop :=
  k ≤ bins.length ∧ (k = 0 ∨ bins.getD (k - 1) 0 < x) ∧
    (k = bins.length ∨ x ≤ bins.getD k 0)

instance (bins : List ℚ) (k : ℕ) (x : ℚ) : Decidable (inBucket bins k x) := by
  unfold inBucket
  infer_instance

/-- Modelled from the spec: the q-th percentile of a sorted sample with
numpy's default linear interpolation, used by the missing
`whitebox/utils/percentiles.py`. -/
def percentileLinear (sortedVals : List ℚ) (q : ℕ) : ℚ :=
  match sortedVals with
  | [] => 0
  | _ =>
    let n := sortedVals.length
    let pos : ℚ := (q * (n - 1) : ℚ) / 100
    let lo : ℕ := (Int.floor pos).toNat
    let hi : ℕ := (Int.ceil pos).toNat
    let frac : ℚ := pos - lo
    sortedVals.getD lo 0 + frac * (sortedVals.getD hi 0 - sortedVals.getD lo 0)

/-- Modelled from the spec: `utils.percentiles.create_percentile_vecs`
(missing from src), which per spec section 4.1 computes "100 percentile
cut-points over values (0th through 99th)". -/
def create_percentile_vecs (vals : List ℚ) : List ℚ :=
  (List.range 100).map (percentileLinear (List.insertionSort (· ≤ ·) vals))

/-- Embedding of base.py line 193: `group_percentiles =
sorted(list(set(percentiles.create_percentile_vecs(group_col_vals))))`. -/
def groupPercentiles (vals : List ℚ) : List ℚ :=
  sortedDedup (create_percentile_vecs vals)

/-- Embedding of base.py line 195: the `fixed_bins` assignment
`np.digitize(group_col_vals, group_percentiles, right=True)` used for a
group with more than 100 rows. -/
def fixedBins (vals : List ℚ) : List ℕ :=
  vals.map (digitizeRight (groupPercentiles vals))

/-- Row of the slice `self.cat_df[[col, 'errors', 'predictedYSmooth',
groupby]]` handled by the error-mode driver on a continuous column. -/
structure ERow where
  colVal : ℚ
  errVal : ℚ
  pred : ℚ
  groupVal : String
deriving DecidableEq, Repr

/-- Summary record produced by `WhiteBoxError._transform_function` for one
continuous bucket (WhiteBox.py lines 157 to 162): column max, modal group
level, prediction mean, and the two one-sided error aggregates, the
latter three carried as `Option` because a pandas aggregate of an empty or
all-missing series is NaN. -/
structure ErrSummary where
  colValue : ℚ
  groupValue : String
  predictedYSmooth : Option ℚ
  errPos : Option ℚ
  errNeg : Option ℚ
deriving DecidableEq, Repr

/-- Embedding of `WhiteBoxError._transform_function` on a continuous
bucket (WhiteBox.py lines 124 to 164): split the `errors` column into the
index-aligned `errPos`/`errNeg` columns and reduce, applying the
configured aggregate `agg` the NaN-skipping way pandas applies it to a
Series with missing entries. -/
def err_transform_function (agg : List ℚ → Option ℚ) (group : List ERow) :
    ErrSummary :=
  let errs := group.map ERow.errVal
  { colValue := listMaxQ (group.map ERow.colVal)
    groupValue := pandasMode "" (group.map ERow.groupVal)
    predictedYSmooth := meanQ (group.map ERow.pred)
    errPos := nanAgg agg (errPosCol errs)
    errNeg := nanAgg agg (errNegCol errs) }

/-- Bin label a row receives inside `WhiteBoxBase._continuous_slice`
(base.py lines 187 to 201): the digitized percentile bucket when the group
has more than 100 rows, otherwise the raw column value. -/
def contBinOf (groupSize : ℕ) (bins : List ℚ) (x : ℚ) : ℚ :=
  if 100 < groupSize then (digitizeRight bins x : ℚ) else x

/-- Embedding of `WhiteBoxBase._continuous_slice` for the error driver:
bin the group (percentile buckets above 100 rows, raw values otherwise),
then fold `err_transform_function` over the buckets in ascending bin
order, as `groupby('fixed_bins').apply` does. -/
def err_continuous_slice (agg : List ℚ → Option ℚ) (group : List ERow) :
    List ErrSummary :=
  let bins := groupPercentiles (group.map ERow.colVal)
  let binOf := fun r : ERow => contBinOf group.length bins r.colVal
  (sortedDedup (group.map binOf)).map
    (fun b => err_transform_function agg (group.filter (fun r => binOf r = b)))

/-- Embedding of the continuous branch of `WhiteBoxError._var_check`
(WhiteBox.py lines 201 to 215) before the JSON stage: group the sliced
table by the groupby variable (pandas iterates groups in ascending key
order) and apply `_continuous_slice` to each group. -/
def err_var_check_records (agg : List ℚ → Option ℚ) (rows : List ERow) :
    List ErrSummary :=
  ((sortedDedup (rows.map ERow.groupVal)).map
    (fun g => err_continuous_slice agg (rows.filter (fun r => r.groupVal = g)))).flatten

/-- Cell of the serialized record tree: a number or a string literal.
There is no NaN constructor, which is the serialization-safety the spec
asks for; the question is only whether missing aggregates end up as the
literal marker. -/
inductive JCell where
  | num (x : ℚ)
  | strLit (v : String)
deriving DecidableEq, Repr

/-- Embedding of `errors.replace(np.nan, 'null')` (WhiteBox.py lines 219
and 452) acting on one cell: a missing value becomes the literal string
marker, a present number is kept. -/
def replaceNanCell : Option ℚ → JCell
  | none => JCell.strLit "null"
  | some x => JCell.num x

/-- Summary record after the NaN replacement stage, as handed to
`utils.to_json`. -/
structure JErrSummary where
  colValue : JCell
  groupValue : String
  predictedYSmooth : JCell
  errPos : JCell
  errNeg : JCell
deriving DecidableEq, Repr

/-- NaN replacement applied to one error-mode summary record. -/
def jsonOfErrSummary (r : ErrSummary) : JErrSummary :=
  { colValue := JCell.num r.colValue
    groupValue := r.groupValue
    predictedYSmooth := replaceNanCell r.predictedYSmooth
    errPos := replaceNanCell r.errPos
    errNeg := replaceNanCell r.errNeg }

/-- Embedding of the full continuous branch of `WhiteBoxError._var_check`
(WhiteBox.py lines 166 to 227): the per-pair records with
`errors.replace(np.nan, 'null')` applied, which is what `utils.to_json`
serializes for the (column, groupby variable) pair. -/
def err_var_check (agg : List ℚ → Option ℚ) (rows : List ERow) :
    List JErrSummary :=
  (err_var_check_records agg rows).map jsonOfErrSummary

/-- Row of the slice `self.cat_df[[col, 'errors', 'predictedYSmooth',
groupby, 'diff']]` handled by the sensitivity driver on a continuous
column. -/
structure SRow where
  colVal : ℚ
  errVal : ℚ
  pred : ℚ
  groupVal : String
  diffVal : ℚ
deriving DecidableEq, Repr

/-- Row-wise zip of the five sliced columns into `SRow` records
(truncating at the shortest column, as index alignment never has to in
the source because all the columns share the table's row count). -/
def mkSRows : List ℚ → List ℚ → List ℚ → List String → List ℚ → List SRow
  | c :: cs, e :: es, p :: ps, g :: gs, d :: ds =>
      ⟨c, e, p, g, d⟩ :: mkSRows cs es ps gs ds
  | _, _, _, _, _ => []

/-- Summary record produced by `WhiteBoxSensitivity._transform_function`
for one continuous bucket (WhiteBox.py lines 355 to 358): column max,
modal group level, and the configured aggregate of the bucket's
perturbation deltas reported under `predictedYSmooth`. -/
structure SensSummary where
  colValue : ℚ
  groupValue : String
  predictedYSmooth : Option ℚ
deriving DecidableEq, Repr

/-- Embedding of `WhiteBoxSensitivity._transform_function` on a
continuous bucket (WhiteBox.py lines 332 to 369). -/
def sens_transform_function (agg : List ℚ → Option ℚ) (group : List SRow) :
    SensSummary :=
  { colValue := listMaxQ (group.map SRow.colVal)
    groupValue := pandasMode "" (group.map SRow.groupVal)
    predictedYSmooth := agg (group.map SRow.diffVal) }

/-- Embedding of `WhiteBoxBase._continuous_slice` for the sensitivity
driver: same binning as the error driver, reduced with the sensitivity
transform. -/
def sens_continuous_slice (agg : List ℚ → Option ℚ) (group : List SRow) :
    List SensSummary :=
  let bins := groupPercentiles (group.map SRow.colVal)
  let binOf := fun r : SRow => contBinOf group.length bins r.colVal
  (sortedDedup (group.map binOf)).map
    (fun b => sens_transform_function agg (group.filter (fun r => binOf r = b)))

/-- Instance state the sensitivity driver reads and writes: the numeric
model-input table `model_df` and the live categorical-typed scored table
`cat_df` (the Scored Table of the spec). -/
structure SensState where
  model_df : DfT ℚ
  cat_df : DfT Cell
deriving DecidableEq, Repr

/-- Everything the continuous branch of `WhiteBoxSensitivity._var_check`
computes for one (column, groupby variable) pair: the perturbed private
copy `copydf`, its re-scored predictions, the per-row deltas, the
incremental value passed to `utils.to_json`, and the reduced summary
records. -/
structure SensContOut where
  copydf : DfT ℚ
  new_predictions : List ℚ
  diff : List ℚ
  incremental_val : ℚ
  records : List SensSummary
deriving Repr

/-- Embedding of the continuous branch of
`WhiteBoxSensitivity._var_check` (WhiteBox.py lines 371 to 458, i.e.
lines 427 to 449 plus the shared epilogue), line by line:
`copydf = self.model_df.copy(deep=True)`;
`incremental_val = copydf[col].std() * self.std_num`;
`copydf[col] = copydf[col] + incremental_val`;
`copydf['new_predictions'] = modelobj.predict(copydf minus ydepend and
predictedYSmooth)`;
`self.cat_df['diff'] = copydf['new_predictions'] -
copydf['predictedYSmooth']` (a write to the live scored table);
then `self.cat_df[col_indices].groupby(groupby).apply(cont_slice_partial)`.
The model's `predict` and the column standard deviation `std` (an
irrational real in general) are abstract parameters, as is the configured
aggregate `agg`.  Returns the pair output together with the new instance
state. -/
def sens_var_check (predict : DfT ℚ → List ℚ) (std : List ℚ → ℚ)
    (agg : List ℚ → Option ℚ) (std_num : ℤ) (ydepend col groupby : String)
    (s : SensState) : SensContOut × SensState :=
  let copydf0 := s.model_df
  let incremental_val := std (getCol copydf0 col) * (std_num : ℚ)
  let copydf := setCol copydf0 col
    ((getCol copydf0 col).map (fun x => x + incremental_val))
  let new_predictions := predict (dropCols copydf [ydepend, "predictedYSmooth"])
  let diff := List.zipWith (fun a b => a - b) new_predictions
    (getCol copydf "predictedYSmooth")
  let cat_df2 := setCol s.cat_df "diff" (diff.map Cell.q)
  let rows := mkSRows ((getCol cat_df2 col).map Cell.asQ)
    ((getCol cat_df2 "errors").map Cell.asQ)
    ((getCol cat_df2 "predictedYSmooth").map Cell.asQ)
    ((getCol cat_df2 groupby).map Cell.asS)
    ((getCol cat_df2 "diff").map Cell.asQ)
  let records := ((sortedDedup (rows.map SRow.groupVal)).map
    (fun g => sens_continuous_slice agg (rows.filter (fun r => r.groupVal = g)))).flatten
  ({ copydf := copydf, new_predictions := new_predictions, diff := diff,
     incremental_val := incremental_val, records := records },
   { s with cat_df := cat_df2 })

/-- Row of the slice `self.cat_df[[col, ..., groupby, 'diff']]` handled by
the sensitivity driver on a categorical column: the row's category level,
its groupby level, and the perturbation delta already attached by the
one-hot forced re-scoring of WhiteBox.py lines 393 to 407. -/
structure CRow where
  colVal : String
  groupVal : String
  diffVal : ℚ
deriving DecidableEq, Repr

/-- Lexicographic order on (groupby level, category level) pairs, the
order `groupby([groupby, col])` iterates its cells in. -/
def pairLe (a b : String × String) : Prop :=
  a.1 < b.1 ∨ (a.1 = b.1 ∧ a.2 ≤ b.2)

instance : DecidableRel pairLe := by
  unfold pairLe
  infer_instance

/-- Embedding of WhiteBox.py line 395: `incremental_val =
self.cat_df[col].mode().values[0]`, the modal level of the categorical
column over the whole scored table. -/
def catIncrementalVal (rows : List CRow) : String :=
  pandasMode "" (rows.map CRow.colVal)

/-- Embedding of WhiteBox.py lines 415 to 417: the `mode_mask` filter
`self.cat_df[col] != incremental_val` keeps only the rows whose value
differs from the mode. -/
def catKeptRows (rows : List CRow) : List CRow :=
  rows.filter (fun r => decide (r.colVal ≠ catIncrementalVal rows))

/-- Cell keys of `groupby([groupby, col])` over the masked table: the
observed (groupby level, category level) pairs in ascending order. -/
def catBucketKeys (rows : List CRow) : List (String × String) :=
  List.insertionSort pairLe ((catKeptRows rows).map (fun r => (r.groupVal, r.colVal))).dedup

/-- Rows of one `groupby([groupby, col])` cell over the masked table. -/
def catBucketOf (rows : List CRow) (k : String × String) : List CRow :=
  (catKeptRows rows).filter (fun r => decide ((r.groupVal, r.colVal) = k))

/-- Summary record produced by `WhiteBoxSensitivity._transform_function`
for one categorical bucket (WhiteBox.py lines 365 to 367): modal column
level, modal group level, and the configured aggregate of the bucket's
perturbation deltas. -/
structure CatSummary where
  colValue : String
  groupValue : String
  predictedYSmooth : Option ℚ
deriving DecidableEq, Repr

/-- Embedding of the categorical branch of
`WhiteBoxSensitivity._transform_function`. -/
def cat_transform_function (agg : List ℚ → Option ℚ) (group : List CRow) :
    CatSummary :=
  { colValue := pandasMode "" (group.map CRow.colVal)
    groupValue := pandasMode "" (group.map CRow.groupVal)
    predictedYSmooth := agg (group.map CRow.diffVal) }

/-- Embedding of the bucketing epilogue of the categorical branch of
`WhiteBoxSensitivity._var_check` (WhiteBox.py lines 393 to 425): the
per-pair summary records over the mode-masked rows, together with the
mode value reported as the pair's incremental value. -/
def sens_var_check_cat (agg : List ℚ → Option ℚ) (rows : List CRow) :
    List CatSummary × String :=
  ((catBucketKeys rows).map (fun k => cat_transform_function agg (catBucketOf rows k)),
   catIncrementalVal rows)

/-- Observable side effects of the run pipeline on table data, used to
state that configuration errors are raised before any of them happen. -/
inductive RunEvent where
  | copiedData
  | scoredData
deriving DecidableEq, Repr

/-- Modelled from the spec: `wb_utils.Settings.supported_agg_errors`
(missing `whitebox/utils/utils.py`), per the base.py docstring lines 55
to 60: "MSE, MAE, RMSE, MED, MEAN". -/
def supported_agg_errors : List String := ["MSE", "MAE", "RMSE", "MED", "MEAN"]

/-- Modelled from the spec: `wb_utils.Settings.supported_out_types`
(missing `whitebox/utils/utils.py`), per the run docstring base.py lines
266 to 269: html, raw_data, agg_data. -/
def supported_out_types : List String := ["html", "raw_data", "agg_data"]

/-- Allowed perturbation magnitudes, WhiteBox.py line 316. -/
def allowed_std_num : List ℤ := [-3, -2, -1, 1, 2, 3]

/-- Instance state of a `WhiteBoxBase` object: the two tables, the run
configuration kept on the instance, the `raw_df`/`agg_df` accumulators
(base.py lines 115 to 118), and the `outputs` attribute whose presence
`get_raw_df`/`get_agg_df` test with `hasattr` (modelled as an `Option`,
`none` standing for the attribute not existing yet). -/
structure WBState where
  model_df : DfT ℚ
  cat_df : DfT Cell
  ydepend : String
  groupbyvars : List String
  raw_df : List (List ℚ)
  agg_df : List (List ℚ)
  outputs : Option (List String)
deriving Repr

/-- Embedding of `WhiteBoxBase.__init__` (base.py lines 33 to 118): the
two eager configuration checks at lines 67 and 71 run before the deep
copy of the model dataframe at line 75; the returned event list records
which data-touching steps executed before the function finished or
raised. -/
def whitebox_base_init (error_type : String) (groupbyvars : List String)
    (ydepend : String) (model_df : DfT ℚ) (cat_df : DfT Cell) :
    List RunEvent × Except String WBState :=
  if error_type ∉ supported_agg_errors then
    ([], Except.error "Supported aggregate error metrics are MSE, MAE, RMSE, MED, MEAN")
  else if groupbyvars = [] then
    ([], Except.error "Please specify groupby variables")
  else
    ([RunEvent.copiedData],
     Except.ok { model_df := model_df, cat_df := cat_df, ydepend := ydepend,
                 groupbyvars := groupbyvars, raw_df := [], agg_df := [],
                 outputs := none })

/-- Embedding of `WhiteBoxSensitivity.__init__` (WhiteBox.py lines 294 to
330): the `std_num` membership check at line 316 runs before the base
constructor is entered. -/
def whitebox_sensitivity_init (std_num : ℤ) (error_type : String)
    (groupbyvars : List String) (ydepend : String) (model_df : DfT ℚ)
    (cat_df : DfT Cell) : List RunEvent × Except String WBState :=
  if std_num ∉ allowed_std_num then
    ([], Except.error "Standard deviation adjustment needs to be -3, -2, -1, 1, 2, or 3")
  else
    whitebox_base_init error_type groupbyvars ydepend model_df cat_df

/-- Embedding of `WhiteBoxBase.fmt_raw_df` (base.py lines 211 to 238):
the only method that appends to the `raw_df` accumulator.  It is defined
by the source but never invoked by `run` or anything `run` calls. -/
def fmt_raw_df (s : WBState) (formatted : List (List ℚ)) : WBState :=
  { s with raw_df := s.raw_df ++ formatted }

/-- Embedding of `WhiteBoxBase.fmt_agg_df` (base.py lines 240 to 258):
the only method that appends to the `agg_df` accumulator, likewise never
invoked by the pipeline. -/
def fmt_agg_df (s : WBState) (formatted : List (List ℚ)) : WBState :=
  { s with agg_df := s.agg_df ++ formatted }

/-- Embedding of `WhiteBoxBase.run` (base.py lines 260 to 361).  The
output-type check at line 275 runs before the scoring pass
(`fmt_sklearn_preds`, line 285, an external collaborator abstracted as
`scoreFn`).  The double loop over analysis columns and groupby variables
threads the live `cat_df` through the per-pair driver `varCheckFn`
(matching `_var_check`, which may write to `self.cat_df`), collects the
per-pair JSON outputs, routes the self-pairing slots to the accuracy
aggregator `accFn`, and finally stores the assembled placeholder on the
instance as `outputs`.  The `raw_df`/`agg_df` accumulators are never
touched. -/
def run_engine (scoreFn : DfT ℚ → DfT Cell → DfT Cell × DfT ℚ)
    (varCheckFn : String → String → DfT Cell → String × DfT Cell)
    (accFn : String → String) (output_type : String) (s : WBState) :
    List RunEvent × Except String WBState :=
  if output_type ∉ supported_out_types then
    ([], Except.error "Output type not supported")
  else
    let scored := scoreFn s.model_df s.cat_df
    let toIter := (scored.1.map Prod.fst).filter
      (fun c => decide (c ∉ ["errors", "predictedYSmooth", s.ydepend]))
    let step := fun (acc : DfT Cell × List String × List String) (col : String) =>
      s.groupbyvars.foldl (fun a g =>
        if col ≠ g then
          let r := varCheckFn col g a.1
          (r.2, a.2.1 ++ [r.1], a.2.2)
        else
          (a.1, a.2.1, a.2.2 ++ [accFn g])) acc
    let res := toIter.foldl step (scored.1, [], [])
    ([RunEvent.scoredData],
     Except.ok { s with model_df := scored.2, cat_df := res.1,
                        outputs := some (res.2.1 ++ res.2.2) })

/-- Embedding of `WhiteBoxBase.get_raw_df` (base.py lines 363 to 373):
raises unless the `outputs` attribute exists, i.e. unless `run` has
completed, then returns the raw accumulator. -/
def get_raw_df (s : WBState) : Except String (List (List ℚ)) :=
  if s.outputs.isNone then
    Except.error "run() must be called before returning analysis data"
  else
    Except.ok s.raw_df

/-- Embedding of `WhiteBoxBase.get_agg_df` (base.py lines 375 to 385). -/
def get_agg_df (s : WBState) : Except String (List (List ℚ)) :=
  if s.outputs.isNone then
    Except.error "run() must be called before returning analysis data"
  else
    Except.ok s.agg_df

/-! Helper lemmas about the dataframe embedding. -/

theorem lookup_cons_eq {α : Type} (a n : String) (b : α) (t : List (String × α)) :
    List.lookup n ((a, b) :: t) = if n = a then some b else List.lookup n t := by
  rw [List.lookup_cons]
  by_cases h : n = a
  · simp [h]
  · have hx : (n == a) = false := by simp [beq_iff_eq, h]
    simp [hx, h]

theorem lookup_map_update {α : Type} (df : DfT α) (n : String) (v : List α)
    (h : (df.lookup n).isSome) :
    (df.map (fun p => if p.1 = n then (n, v) else p)).lookup n = some v := by
  induction df with
  | nil => simp [List.lookup] at h
  | cons p t ih =>
    obtain ⟨a, b⟩ := p
    by_cases hp : a = n
    · subst hp
      simp only [List.map_cons, if_pos rfl]
      rw [lookup_cons_eq]
      simp
    · rw [lookup_cons_eq] at h
      rw [if_neg (fun he => hp he.symm)] at h
      simp only [List.map_cons, if_neg hp]
      rw [lookup_cons_eq, if_neg (fun he => hp he.symm)]
      exact ih h

theorem lookup_append_single {α : Type} (df : DfT α) (n : String) (v : List α)
    (h : df.lookup n = none) :
    (df ++ [(n, v)]).lookup n = some v := by
  induction df with
  | nil =>
    rw [List.nil_append, lookup_cons_eq, if_pos rfl]
  | cons p t ih =>
    obtain ⟨a, b⟩ := p
    rw [lookup_cons_eq] at h
    by_cases hp : n = a
    · rw [if_pos hp] at h
      exact absurd h (by simp)
    · rw [if_neg hp] at h
      rw [List.cons_append, lookup_cons_eq, if_neg hp]
      exact ih h

theorem lookup_none_keys {α : Type} (df : DfT α) (n : String)
    (h : df.lookup n = none) : ∀ p ∈ df, p.1 ≠ n := by
  induction df with
  | nil =>
    intro p hp
    simp at hp
  | cons q t ih =>
    intro p hp
    obtain ⟨a, b⟩ := q
    rw [lookup_cons_eq] at h
    by_cases hq : n = a
    · rw [if_pos hq] at h
      exact absurd h (by simp)
    · rw [if_neg hq] at h
      rcases List.mem_cons.mp hp with hpq | hpt
      · subst hpq
        exact fun he => hq he.symm
      · exact ih h p hpt

theorem getCol_setCol_same {α : Type} (df : DfT α) (n : String) (v : List α) :
    getCol (setCol df n v) n = v := by
  unfold getCol setCol
  by_cases h : (df.lookup n).isSome
  · rw [if_pos h, lookup_map_update df n v h, Option.getD_some]
  · have hn : df.lookup n = none := Option.not_isSome_iff_eq_none.mp h
    rw [if_neg h, lookup_append_single df n v hn, Option.getD_some]

theorem lookup_map_update_ne {α : Type} (df : DfT α) (n m : String) (v : List α)
    (hmn : m ≠ n) :
    (df.map (fun p => if p.1 = n then (n, v) else p)).lookup m = df.lookup m := by
  induction df with
  | nil => simp
  | cons p t ih =>
    obtain ⟨a, b⟩ := p
    by_cases hp : a = n
    · subst hp
      have hhead : (if ((a, b) : String × List α).1 = a then (a, v) else (a, b)) = (a, v) :=
        if_pos rfl
      rw [List.map_cons, hhead, lookup_cons_eq, lookup_cons_eq, if_neg hmn, if_neg hmn]
      exact ih
    · simp only [List.map_cons, if_neg hp]
      rw [lookup_cons_eq, lookup_cons_eq]
      by_cases hm : m = a
      · rw [if_pos hm, if_pos hm]
      · rw [if_neg hm, if_neg hm]
        exact ih

theorem lookup_append_single_ne {α : Type} (df : DfT α) (n m : String)
    (v : List α) (hmn : m ≠ n) :
    (df ++ [(n, v)]).lookup m = df.lookup m := by
  induction df with
  | nil =>
    rw [List.nil_append, lookup_cons_eq, if_neg hmn]
  | cons p t ih =>
    obtain ⟨a, b⟩ := p
    rw [List.cons_append, lookup_cons_eq, lookup_cons_eq]
    by_cases hm : m = a
    · rw [if_pos hm, if_pos hm]
    · rw [if_neg hm, if_neg hm]
      exact ih

theorem getCol_setCol_ne {α : Type} (df : DfT α) (n m : String) (v : List α)
    (hmn : m ≠ n) : getCol (setCol df n v) m = getCol df m := by
  unfold getCol setCol
  by_cases h : (df.lookup n).isSome
  · rw [if_pos h, lookup_map_update_ne df n m v hmn]
  · rw [if_neg h, lookup_append_single_ne df n m v hmn]

theorem setCol_setCol_same {α : Type} (df : DfT α) (n : String) (v : List α) :
    setCol (setCol df n v) n v = setCol df n v := by
  have hff : ∀ p : String × List α,
      (fun p : String × List α => if p.1 = n then (n, v) else p)
        ((fun p : String × List α => if p.1 = n then (n, v) else p) p) =
      (fun p : String × List α => if p.1 = n then (n, v) else p) p := by
    intro p
    by_cases hp : p.1 = n
    · simp [hp]
    · simp [hp]
  by_cases h : (df.lookup n).isSome
  · have h1 : setCol df n v =
        df.map (fun p => if p.1 = n then (n, v) else p) := by
      unfold setCol
      rw [if_pos h]
    have h2 : ((df.map (fun p => if p.1 = n then (n, v) else p)).lookup n).isSome := by
      rw [lookup_map_update df n v h]
      rfl
    rw [h1]
    unfold setCol
    rw [if_pos h2, List.map_map]
    exact List.map_congr_left (fun p _ => hff p)
  · have hn : df.lookup n = none := Option.not_isSome_iff_eq_none.mp h
    have h1 : setCol df n v = df ++ [(n, v)] := by
      unfold setCol
      rw [if_neg h]
    have h2 : ((df ++ [(n, v)]).lookup n).isSome := by
      rw [lookup_append_single df n v hn]
      rfl
    rw [h1]
    unfold setCol
    rw [if_pos h2, List.map_append]
    have hdf : df.map (fun p => if p.1 = n then (n, v) else p) = df := by
      have hks := lookup_none_keys df n hn
      calc df.map (fun p => if p.1 = n then (n, v) else p)
      _ = df.map id := List.map_congr_left (fun p hp => by simp [hks p hp])
      _ = df := List.map_id df
    rw [hdf]
    simp

/-! Helper lemmas about the positive/negative error split. -/

theorem filterMap_errPosCol (errs : List ℚ) :
    (errPosCol errs).filterMap id = errs.filter (fun e => decide (0 < e)) := by
  induction errs with
  | nil => rfl
  | cons e t ih =>
    simp only [errPosCol, List.map_cons, List.filterMap_cons, List.filter_cons]
    by_cases h : 0 < e
    · simp only [if_pos h, decide_eq_true h, id]
      rw [← ih]
      rfl
    · simp only [if_neg h, decide_eq_false h, id]
      rw [← ih]
      rfl

theorem filterMap_errNegCol (errs : List ℚ) :
    (errNegCol errs).filterMap id = errs.filter (fun e => decide (e < 0)) := by
  induction errs with
  | nil => rfl
  | cons e t ih =>
    simp only [errNegCol, List.map_cons, List.filterMap_cons, List.filter_cons]
    by_cases h : e < 0
    · simp only [if_pos h, decide_eq_true h, id]
      rw [← ih]
      rfl
    · simp only [if_neg h, decide_eq_false h, id]
      rw [← ih]
      rfl

/-! Helper lemmas about the pandas mode embedding. -/

theorem sortedDedup_ne_nil {α : Type} [LinearOrder α] [DecidableEq α] {l : List α}
    (h : l ≠ []) : sortedDedup l ≠ [] := by
  intro hs
  apply h
  have hperm := List.perm_insertionSort (α := α) (· ≤ ·) l.dedup
  rw [sortedDedup] at hs
  rw [hs] at hperm
  exact (List.dedup_eq_nil l).mp hperm.nil_eq.symm

theorem mem_sortedDedup {α : Type} [LinearOrder α] [DecidableEq α] {l : List α} {a : α} :
    a ∈ sortedDedup l ↔ a ∈ l := by
  rw [sortedDedup, (List.perm_insertionSort (· ≤ ·) l.dedup).mem_iff,
    List.mem_dedup]

theorem pandasMode_mem {α : Type} [LinearOrder α] [DecidableEq α] (dflt : α) {l : List α}
    (h : l ≠ []) : pandasMode dflt l ∈ l := by
  unfold pandasMode
  rcases hm : (sortedDedup l).argmax (fun x => l.count x) with _ | m
  · exact absurd (List.argmax_eq_none.mp hm) (sortedDedup_ne_nil h)
  · simp only [Option.getD_some]
    exact mem_sortedDedup.mp (List.argmax_mem hm)

theorem count_le_count_pandasMode {α : Type} [LinearOrder α] [DecidableEq α] (dflt : α)
    {l : List α} (h : l ≠ []) {v : α} (hv : v ∈ l) :
    l.count v ≤ l.count (pandasMode dflt l) := by
  unfold pandasMode
  rcases hm : (sortedDedup l).argmax (fun x => l.count x) with _ | m
  · exact absurd (List.argmax_eq_none.mp hm) (sortedDedup_ne_nil h)
  · simp only [Option.getD_some]
    exact List.le_of_mem_argmax (mem_sortedDedup.mpr hv) hm

/-! Helper lemmas about digitize and the percentile cut-points. -/

theorem sortedDedup_sorted_lt {α : Type} [LinearOrder α] [DecidableEq α] (l : List α) :
    List.Sorted (· < ·) (sortedDedup l) := by
  have hle : List.Sorted (· ≤ ·) (sortedDedup l) :=
    List.sorted_insertionSort (· ≤ ·) l.dedup
  have hnd : (sortedDedup l).Nodup :=
    (List.perm_insertionSort (· ≤ ·) l.dedup).nodup_iff.mpr (List.nodup_dedup l)
  exact (hle.and hnd).imp (fun hab => lt_of_le_of_ne hab.1 hab.2)

theorem digitizeRight_cons_sorted {b : ℚ} {bs : List ℚ}
    (hs : List.Sorted (· < ·) (b :: bs)) (x : ℚ) :
    digitizeRight (b :: bs) x =
      if b < x then digitizeRight bs x + 1 else 0 := by
  unfold digitizeRight
  by_cases h : b < x
  · simp [List.countP_cons, h]
  · have hz : bs.countP (fun e => decide (e < x)) = 0 := by
      rw [List.countP_eq_zero]
      intro e he
      have hbe : b < e := List.rel_of_sorted_cons hs e he
      have : ¬ e < x := fun hex => h (lt_trans hbe hex)
      simpa using this
    simp [List.countP_cons, h, hz]

theorem inBucket_iff_digitizeRight {bins : List ℚ}
    (hs : List.Sorted (· < ·) bins) (k : ℕ) (x : ℚ) :
    inBucket bins k x ↔ k = digitizeRight bins x := by
  induction bins generalizing k with
  | nil =>
    unfold inBucket digitizeRight
    simp only [List.length_nil, Nat.le_zero, List.countP_nil]
    constructor
    · exact fun h => h.1
    · intro h
      exact ⟨h, Or.inl h, Or.inl (h.trans rfl)⟩
  | cons b bs ih =>
    have hbs : List.Sorted (· < ·) bs := hs.of_cons
    have hball : ∀ e ∈ bs, b < e := List.rel_of_sorted_cons hs
    rw [digitizeRight_cons_sorted hs]
    by_cases hbx : b < x
    · rw [if_pos hbx]
      cases k with
      | zero =>
        constructor
        · intro hk
          rcases hk.2.2 with h0 | hxb
          · exact absurd h0.symm (Nat.succ_ne_zero _)
          · exact absurd hbx (not_lt.mpr (by simpa using hxb))
        · intro h
          exact absurd h.symm (Nat.succ_ne_zero _)
      | succ j =>
        have hstep : inBucket (b :: bs) (j + 1) x ↔ inBucket bs j x := by
          unfold inBucket
          constructor
          · rintro ⟨h1, h2, h3⟩
            refine ⟨by simpa using h1, ?_, ?_⟩
            · cases j with
              | zero => exact Or.inl rfl
              | succ i =>
                rcases h2 with h0 | hlt
                · exact absurd h0 (Nat.succ_ne_zero _)
                · exact Or.inr (by simpa using hlt)
            · rcases h3 with hlen | hle
              · exact Or.inl (by simpa using hlen)
              · exact Or.inr (by simpa using hle)
          · rintro ⟨h1, h2, h3⟩
            refine ⟨by simpa using h1, ?_, ?_⟩
            · cases j with
              | zero => exact Or.inr (by simpa using hbx)
              | succ i =>
                rcases h2 with h0 | hlt
                · exact absurd h0 (Nat.succ_ne_zero _)
                · exact Or.inr (by simpa using hlt)
            · rcases h3 with hlen | hle
              · exact Or.inl (by simpa using hlen)
              · exact Or.inr (by simpa using hle)
        rw [hstep, ih hbs]
        exact ⟨fun h => by omega, fun h => by omega⟩
    · rw [if_neg hbx]
      cases k with
      | zero =>
        constructor
        · intro _
          rfl
        · intro _
          exact ⟨Nat.zero_le _, Or.inl rfl, Or.inr (by simpa using le_of_not_lt hbx)⟩
      | succ j =>
        constructor
        · rintro ⟨h1, h2, _⟩
          exfalso
          rcases h2 with h0 | hlt
          · exact Nat.succ_ne_zero _ h0
          · cases j with
            | zero =>
              exact hbx (by simpa using hlt)
            | succ i =>
              have hjlen : i + 1 ≤ bs.length := by simpa using h1
              have hrange : i < bs.length := Nat.lt_of_succ_le hjlen
              have hget : (b :: bs).getD (i + 1 + 1 - 1) 0 = bs[i] := by
                simp [List.getD_eq_getElem?_getD, List.getElem?_eq_getElem hrange]
              rw [hget] at hlt
              have hmem : bs[i] ∈ bs := List.getElem_mem hrange
              exact hbx (lt_trans (hball _ hmem) hlt)
        · intro h
          exact absurd h (Nat.succ_ne_zero _)

theorem digitizeRight_mono (bins : List ℚ) {x y : ℚ} (h : x ≤ y) :
    digitizeRight bins x ≤ digitizeRight bins y := by
  unfold digitizeRight
  refine List.countP_mono_left ?_
  intro b _ hb
  have : b < x := of_decide_eq_true hb
  exact decide_eq_true (lt_of_lt_of_le this h)

/-! Claim theorems. -/

/-- C1: In error mode, for every bucket reduced by the Bucket Reducer,
`err_pos` equals the configured aggregate function applied to exactly the
bucket rows whose error is strictly greater than 0, and `err_neg` equals
the aggregate applied to exactly the rows whose error is strictly less
than 0; a row with error exactly 0 lands in neither filtered subsequence,
so it contributes to neither aggregate. -/
theorem err_transform_splits_pos_neg (agg : List ℚ → Option ℚ)
    (group : List ERow) :
    (err_transform_function agg group).errPos =
        agg ((group.map ERow.errVal).filter (fun e => decide (0 < e))) ∧
    (err_transform_function agg group).errNeg =
        agg ((group.map ERow.errVal).filter (fun e => decide (e < 0))) ∧
    (0 : ℚ) ∉ (group.map ERow.errVal).filter (fun e => decide (0 < e)) ∧
    (0 : ℚ) ∉ (group.map ERow.errVal).filter (fun e => decide (e < 0)) := by
  refine ⟨?_, ?_, ?_, ?_⟩
  · show nanAgg agg (errPosCol (group.map ERow.errVal)) = _
    rw [nanAgg, filterMap_errPosCol]
  · show nanAgg agg (errNegCol (group.map ERow.errVal)) = _
    rw [nanAgg, filterMap_errNegCol]
  · intro hmem
    have := (List.mem_filter.mp hmem).2
    simp at this
  · intro hmem
    have := (List.mem_filter.mp hmem).2
    simp at this

/-- C2: In sensitivity mode on a continuous column, the perturbed table
is the model-input table with that one column shifted uniformly by the
column's standard deviation times `std_num` (every other column
untouched), the per-row deltas are the predictions on the shifted table
minus the original predictions, and the reported incremental value is
that signed shift. -/
theorem sens_continuous_shift_and_diff (predict : DfT ℚ → List ℚ)
    (std : List ℚ → ℚ) (agg : List ℚ → Option ℚ) (std_num : ℤ)
    (ydepend col groupby : String) (s : SensState)
    (hcol : col ≠ "predictedYSmooth") :
    getCol (sens_var_check predict std agg std_num ydepend col groupby s).1.copydf col =
        (getCol s.model_df col).map
          (fun x => x + std (getCol s.model_df col) * (std_num : ℚ)) ∧
    (∀ c, c ≠ col →
      getCol (sens_var_check predict std agg std_num ydepend col groupby s).1.copydf c =
        getCol s.model_df c) ∧
    (sens_var_check predict std agg std_num ydepend col groupby s).1.incremental_val =
        std (getCol s.model_df col) * (std_num : ℚ) ∧
    (sens_var_check predict std agg std_num ydepend col groupby s).1.diff =
        List.zipWith (fun a b => a - b)
          (predict (dropCols
            (sens_var_check predict std agg std_num ydepend col groupby s).1.copydf
            [ydepend, "predictedYSmooth"]))
          (getCol s.model_df "predictedYSmooth") := by
  refine ⟨?_, ?_, ?_, ?_⟩
  · show getCol (setCol s.model_df col _) col = _
    rw [getCol_setCol_same]
  · intro c hc
    show getCol (setCol s.model_df col _) c = _
    rw [getCol_setCol_ne _ _ _ _ hc]
  · rfl
  · show List.zipWith _ _ (getCol (setCol s.model_df col _) "predictedYSmooth") = _
    rw [getCol_setCol_ne _ _ _ _ (fun h => hcol h.symm)]
    rfl

/-- Witness for C2 at a concrete model, standard deviation function,
tables, and a column distinct from the prediction column. -/
theorem sens_continuous_shift_and_diff_witness :
    getCol (sens_var_check (fun _ => [(3 : ℚ)]) (fun _ => 2) (fun _ => none) 1
        "y" "x" "g" ⟨[("x", [1]), ("predictedYSmooth", [5]), ("y", [0])],
          [("x", [Cell.q 1]), ("g", [Cell.s "a"]), ("errors", [Cell.q 0]),
           ("predictedYSmooth", [Cell.q 5])]⟩).1.copydf "x" =
      (getCol ([("x", [1]), ("predictedYSmooth", [5]), ("y", [0])] : DfT ℚ) "x").map
        (fun x => x + (fun _ : List ℚ => (2 : ℚ)) (getCol ([("x", [1]),
          ("predictedYSmooth", [5]), ("y", [0])] : DfT ℚ) "x") * ((1 : ℤ) : ℚ)) := by
  exact (sens_continuous_shift_and_diff (fun _ => [(3 : ℚ)]) (fun _ => 2)
    (fun _ => none) 1 "y" "x" "g"
    ⟨[("x", [1]), ("predictedYSmooth", [5]), ("y", [0])],
     [("x", [Cell.q 1]), ("g", [Cell.s "a"]), ("errors", [Cell.q 0]),
      ("predictedYSmooth", [Cell.q 5])]⟩ (by decide)).1

/-- C3 counterexample: the sensitivity driver does not leave the live
scored table unchanged.  At a concrete model, tables, and column, the
`cat_df` held on the instance after `_var_check` differs from the one
before: the driver has written a `diff` column into it
(`self.cat_df['diff'] = ...`, WhiteBox.py line 440). -/
theorem sens_var_check_mutates_cat_df :
    (sens_var_check (fun _ => [(1 : ℚ)]) (fun _ => 1) (fun _ => none) 1
        "y" "x" "g"
        ⟨[("x", [0]), ("predictedYSmooth", [0]), ("y", [0])],
         [("x", [Cell.q 0]), ("g", [Cell.s "a"]), ("errors", [Cell.q 0]),
          ("predictedYSmooth", [Cell.q 0])]⟩).2.cat_df ≠
      [("x", [Cell.q 0]), ("g", [Cell.s "a"]), ("errors", [Cell.q 0]),
       ("predictedYSmooth", [Cell.q 0])] := by
  intro h
  have hn := congrArg (fun df : DfT Cell => df.map Prod.fst) h
  dsimp only at hn
  rw [show List.map Prod.fst ((sens_var_check (fun _ => [(1 : ℚ)]) (fun _ => 1)
      (fun _ => none) 1 "y" "x" "g"
      ⟨[("x", [0]), ("predictedYSmooth", [0]), ("y", [0])],
       [("x", [Cell.q 0]), ("g", [Cell.s "a"]), ("errors", [Cell.q 0]),
        ("predictedYSmooth", [Cell.q 0])]⟩).2.cat_df) =
      ["x", "g", "errors", "predictedYSmooth", "diff"] from by decide] at hn
  exact absurd hn (by decide)

/-- C3 amended: the perturbation itself is applied only to the private
copy of the model-input table, which the driver leaves unchanged on the
instance; every pre-existing column of the live scored table other than
`diff` is also unchanged; but the driver writes the per-row perturbation
deltas into the live scored table's `diff` column. -/
theorem sens_var_check_touches_only_diff (predict : DfT ℚ → List ℚ)
    (std : List ℚ → ℚ) (agg : List ℚ → Option ℚ) (std_num : ℤ)
    (ydepend col groupby : String) (s : SensState) :
    (sens_var_check predict std agg std_num ydepend col groupby s).2.model_df =
        s.model_df ∧
    (∀ c, c ≠ "diff" →
      getCol (sens_var_check predict std agg std_num ydepend col groupby s).2.cat_df c =
        getCol s.cat_df c) ∧
    getCol (sens_var_check predict std agg std_num ydepend col groupby s).2.cat_df "diff" =
      ((sens_var_check predict std agg std_num ydepend col groupby s).1.diff).map Cell.q := by
  refine ⟨rfl, ?_, ?_⟩
  · intro c hc
    show getCol (setCol s.cat_df "diff" _) c = _
    rw [getCol_setCol_ne _ _ _ _ hc]
  · show getCol (setCol s.cat_df "diff" _) "diff" = _
    rw [getCol_setCol_same]
    rfl

/-- Witness for the amended C3 at a concrete instance and the concrete
column `x`. -/
theorem sens_var_check_touches_only_diff_witness :
    getCol (sens_var_check (fun _ => [(1 : ℚ)]) (fun _ => 1) (fun _ => none) 1
        "y" "x" "g"
        ⟨[("x", [0]), ("predictedYSmooth", [0]), ("y", [0])],
         [("x", [Cell.q 0]), ("g", [Cell.s "a"]), ("errors", [Cell.q 0]),
          ("predictedYSmooth", [Cell.q 0])]⟩).2.cat_df "x" =
      getCol ([("x", [Cell.q 0]), ("g", [Cell.s "a"]), ("errors", [Cell.q 0]),
        ("predictedYSmooth", [Cell.q 0])] : DfT Cell) "x" := by
  exact (sens_var_check_touches_only_diff (fun _ => [(1 : ℚ)]) (fun _ => 1)
    (fun _ => none) 1 "y" "x" "g"
    ⟨[("x", [0]), ("predictedYSmooth", [0]), ("y", [0])],
     [("x", [Cell.q 0]), ("g", [Cell.s "a"]), ("errors", [Cell.q 0]),
      ("predictedYSmooth", [Cell.q 0])]⟩).2.1 "x" (by decide)

/-- C8: Invoking the sensitivity driver twice in succession with the same
column and group variable, on the same model and tables, yields identical
per-pair outputs: the only instance state the first call changes is the
`diff` column of the scored table, and the second call overwrites it with
the identical recomputed value before reading it, so the second result
coincides with the first bit for bit. -/
theorem sens_var_check_idempotent (predict : DfT ℚ → List ℚ)
    (std : List ℚ → ℚ) (agg : List ℚ → Option ℚ) (std_num : ℤ)
    (ydepend col groupby : String) (s : SensState) :
    (sens_var_check predict std agg std_num ydepend col groupby
        ((sens_var_check predict std agg std_num ydepend col groupby s).2)).1 =
      (sens_var_check predict std agg std_num ydepend col groupby s).1 := by
  unfold sens_var_check
  dsimp only
  rw [setCol_setCol_same]

/-- C4: In sensitivity mode on a categorical column, the incremental
value reported for the pair is the column's modal level (count-maximal
over the whole table); every row whose value equals that mode lies in no
bucket; every row whose value differs from the mode lies in exactly the
bucket keyed by its (group variable, category level) pair, and that key
is among the bucket keys the summary records are produced from. -/
theorem sens_categorical_excludes_mode (agg : List ℚ → Option ℚ)
    (rows : List CRow) (h : rows ≠ []) :
    (sens_var_check_cat agg rows).2 = catIncrementalVal rows ∧
    (∀ v ∈ rows.map CRow.colVal,
        (rows.map CRow.colVal).count v ≤
          (rows.map CRow.colVal).count (catIncrementalVal rows)) ∧
    (∀ r ∈ rows, r.colVal = catIncrementalVal rows →
        ∀ k, r ∉ catBucketOf rows k) ∧
    (∀ r ∈ rows, r.colVal ≠ catIncrementalVal rows →
        (r.groupVal, r.colVal) ∈ catBucketKeys rows ∧
        ∀ k, (r ∈ catBucketOf rows k ↔ k = (r.groupVal, r.colVal))) ∧
    (sens_var_check_cat agg rows).1 =
        (catBucketKeys rows).map
          (fun k => cat_transform_function agg (catBucketOf rows k)) := by
  have hmap : rows.map CRow.colVal ≠ [] := by
    cases rows with
    | nil => exact absurd rfl h
    | cons a t => simp
  refine ⟨rfl, ?_, ?_, ?_, rfl⟩
  · intro v hv
    exact count_le_count_pandasMode "" hmap hv
  · intro r _ hmode k hk
    have hkept : r ∈ catKeptRows rows := (List.mem_filter.mp hk).1
    have hne : r.colVal ≠ catIncrementalVal rows :=
      of_decide_eq_true (List.mem_filter.mp hkept).2
    exact hne hmode
  · intro r hr hne
    have hkept : r ∈ catKeptRows rows :=
      List.mem_filter.mpr ⟨hr, decide_eq_true hne⟩
    constructor
    · unfold catBucketKeys
      rw [(List.perm_insertionSort pairLe _).mem_iff, List.mem_dedup]
      exact List.mem_map.mpr ⟨r, hkept, rfl⟩
    · intro k
      constructor
      · intro hk
        exact (of_decide_eq_true (List.mem_filter.mp hk).2).symm
      · intro hkeq
        subst hkeq
        exact List.mem_filter.mpr ⟨hkept, decide_eq_true rfl⟩

/-- Witness for C4: at four concrete rows with levels A, A, B, C the mode
is A and it is reported as the pair's incremental value. -/
theorem sens_categorical_excludes_mode_witness :
    (sens_var_check_cat (fun _ => none)
        [⟨"A", "g1", 1⟩, ⟨"A", "g1", 2⟩, ⟨"B", "g1", 3⟩, ⟨"C", "g2", 4⟩]).2 =
      catIncrementalVal
        [⟨"A", "g1", 1⟩, ⟨"A", "g1", 2⟩, ⟨"B", "g1", 3⟩, ⟨"C", "g2", 4⟩] := by
  exact (sens_categorical_excludes_mode (fun _ => none)
    [⟨"A", "g1", 1⟩, ⟨"A", "g1", 2⟩, ⟨"B", "g1", 3⟩, ⟨"C", "g2", 4⟩]
    (by decide)).1

/-- C5: For a group with more than 100 rows, the Percentile Binner's
cut-point sequence is strictly ascending (duplicate-free); the bin column
is exactly the right-closed digitize of each value against it (which is
what `_continuous_slice` groups by, per `contBinOf`); every value lies in
exactly one right-closed interval, namely the one its bucket id names; a
value equal to a cut-point receives the index of that cut-point (the
bucket whose upper edge equals it); and bucket ids are monotone in value
order. -/
theorem percentile_binner_right_closed (vals : List ℚ)
    (h : 100 < vals.length) :
    List.Sorted (· < ·) (groupPercentiles vals) ∧
    (∀ x : ℚ, contBinOf vals.length (groupPercentiles vals) x =
        (digitizeRight (groupPercentiles vals) x : ℚ)) ∧
    fixedBins vals = vals.map (digitizeRight (groupPercentiles vals)) ∧
    (∀ x : ℚ, ∃! k : ℕ, inBucket (groupPercentiles vals) k x) ∧
    (∀ x : ℚ, inBucket (groupPercentiles vals)
        (digitizeRight (groupPercentiles vals) x) x) ∧
    (∀ (j : ℕ) (hj : j < (groupPercentiles vals).length),
        digitizeRight (groupPercentiles vals)
          ((groupPercentiles vals).get ⟨j, hj⟩) = j) ∧
    (∀ x y : ℚ, x ≤ y →
        digitizeRight (groupPercentiles vals) x ≤
          digitizeRight (groupPercentiles vals) y) := by
  have hs : List.Sorted (· < ·) (groupPercentiles vals) :=
    sortedDedup_sorted_lt _
  refine ⟨hs, ?_, rfl, ?_, ?_, ?_, ?_⟩
  · intro x
    unfold contBinOf
    rw [if_pos h]
  · intro x
    exact ⟨digitizeRight (groupPercentiles vals) x,
      (inBucket_iff_digitizeRight hs _ x).mpr rfl,
      fun k hk => (inBucket_iff_digitizeRight hs k x).mp hk⟩
  · intro x
    exact (inBucket_iff_digitizeRight hs _ x).mpr rfl
  · intro j hj
    refine ((inBucket_iff_digitizeRight hs j _).mp ?_).symm
    refine ⟨le_of_lt hj, ?_, ?_⟩
    · cases j with
      | zero => exact Or.inl rfl
      | succ i =>
          refine Or.inr ?_
          have hi : i < (groupPercentiles vals).length :=
            Nat.lt_of_succ_lt hj
          have hget : (groupPercentiles vals).getD (i + 1 - 1) 0 =
              (groupPercentiles vals).get ⟨i, hi⟩ := by
            simp [List.getD_eq_getElem?_getD, List.getElem?_eq_getElem hi]
          rw [hget]
          exact hs.get_strictMono (show (⟨i, hi⟩ : Fin _) < ⟨i + 1, hj⟩ from
            Nat.lt_succ_self i)
    · refine Or.inr ?_
      have hget : (groupPercentiles vals).getD j 0 =
          (groupPercentiles vals).get ⟨j, hj⟩ := by
        simp [List.getD_eq_getElem?_getD, List.getElem?_eq_getElem hj]
      rw [hget]
  · intro x y hxy
    exact digitizeRight_mono _ hxy

/-- Witness for C5 at a concrete group of 101 values. -/
theorem percentile_binner_right_closed_witness :
    List.Sorted (· < ·) (groupPercentiles (List.replicate 101 (0 : ℚ))) := by
  exact (percentile_binner_right_closed (List.replicate 101 (0 : ℚ))
    (by rw [List.length_replicate]; exact Nat.lt_succ_self 100)).1

/-- C6: The per-pair output of the error driver is the record list with
the NaN-replacement stage applied to every record; that stage maps a
missing aggregate to the literal `null` marker and nothing else to it, so
every error aggregate in the emitted output is either a number or the
literal marker (the output type has no NaN at all); and for a NaN-aware
aggregate, a bucket whose positive (resp. negative) error subsequence is
empty yields the `null` marker rather than an error. -/
theorem null_sentinel_for_missing_aggregates (agg : List ℚ → Option ℚ)
    (hagg : agg [] = none) (rows : List ERow) :
    err_var_check agg rows =
        (err_var_check_records agg rows).map jsonOfErrSummary ∧
    (∀ o : Option ℚ, replaceNanCell o = JCell.strLit "null" ↔ o = none) ∧
    (∀ r ∈ err_var_check agg rows,
        ((∃ x, r.errPos = JCell.num x) ∨ r.errPos = JCell.strLit "null") ∧
        ((∃ x, r.errNeg = JCell.num x) ∨ r.errNeg = JCell.strLit "null")) ∧
    (∀ group : List ERow,
        (group.map ERow.errVal).filter (fun e => decide (0 < e)) = [] →
        (jsonOfErrSummary (err_transform_function agg group)).errPos =
          JCell.strLit "null") ∧
    (∀ group : List ERow,
        (group.map ERow.errVal).filter (fun e => decide (e < 0)) = [] →
        (jsonOfErrSummary (err_transform_function agg group)).errNeg =
          JCell.strLit "null") := by
  refine ⟨rfl, ?_, ?_, ?_, ?_⟩
  · intro o
    cases o with
    | none => simp [replaceNanCell]
    | some x => simp [replaceNanCell]
  · intro r hr
    rcases List.mem_map.mp hr with ⟨rec, _, rfl⟩
    constructor
    · cases hpos : rec.errPos with
      | none => exact Or.inr (by simp [jsonOfErrSummary, replaceNanCell, hpos])
      | some x => exact Or.inl ⟨x, by simp [jsonOfErrSummary, replaceNanCell, hpos]⟩
    · cases hneg : rec.errNeg with
      | none => exact Or.inr (by simp [jsonOfErrSummary, replaceNanCell, hneg])
      | some x => exact Or.inl ⟨x, by simp [jsonOfErrSummary, replaceNanCell, hneg]⟩
  · intro group hfil
    have hnone : (err_transform_function agg group).errPos = none := by
      show nanAgg agg (errPosCol (group.map ERow.errVal)) = none
      rw [nanAgg, filterMap_errPosCol, hfil, hagg]
    show replaceNanCell (err_transform_function agg group).errPos = _
    rw [hnone]
    rfl
  · intro group hfil
    have hnone : (err_transform_function agg group).errNeg = none := by
      show nanAgg agg (errNegCol (group.map ERow.errVal)) = none
      rw [nanAgg, filterMap_errNegCol, hfil, hagg]
    show replaceNanCell (err_transform_function agg group).errNeg = _
    rw [hnone]
    rfl

/-- Witness for C6: with the NaN-aware mean and a bucket holding one row
of error exactly 0, the positive subsequence is empty and the emitted
`errPos` is the literal `null` marker. -/
theorem null_sentinel_for_missing_aggregates_witness :
    (jsonOfErrSummary (err_transform_function
        (fun l => if l = [] then none else some (l.sum / l.length))
        [⟨1, 0, 0, "g"⟩])).errPos = JCell.strLit "null" := by
  exact (null_sentinel_for_missing_aggregates
    (fun l => if l = [] then none else some (l.sum / l.length)) rfl
    []).2.2.2.1 [⟨1, 0, 0, "g"⟩] (by decide)

/-- C7: Each configuration error is detected eagerly at construction or
at entry to `run` and raised before any table data is copied, scored, or
processed: an unsupported aggregate error-metric name or an empty groupby
list makes the base constructor raise with an empty event trace; a
`std_num` outside the allowed set makes the sensitivity constructor raise
with an empty event trace; an unsupported output type makes `run` raise
with an empty event trace. -/
theorem config_errors_raised_before_data (error_type : String)
    (groupbyvars : List String) (ydepend : String) (model_df : DfT ℚ)
    (cat_df : DfT Cell) (std_num : ℤ) (output_type : String)
    (scoreFn : DfT ℚ → DfT Cell → DfT Cell × DfT ℚ)
    (varCheckFn : String → String → DfT Cell → String × DfT Cell)
    (accFn : String → String) (s : WBState) :
    (error_type ∉ supported_agg_errors ∨ groupbyvars = [] →
      (whitebox_base_init error_type groupbyvars ydepend model_df cat_df).1 = [] ∧
      ∃ e, (whitebox_base_init error_type groupbyvars ydepend model_df cat_df).2 =
        Except.error e) ∧
    (std_num ∉ allowed_std_num →
      (whitebox_sensitivity_init std_num error_type groupbyvars ydepend
        model_df cat_df).1 = [] ∧
      ∃ e, (whitebox_sensitivity_init std_num error_type groupbyvars ydepend
        model_df cat_df).2 = Except.error e) ∧
    (output_type ∉ supported_out_types →
      (run_engine scoreFn varCheckFn accFn output_type s).1 = [] ∧
      ∃ e, (run_engine scoreFn varCheckFn accFn output_type s).2 =
        Except.error e) := by
  refine ⟨?_, ?_, ?_⟩
  · intro hbad
    unfold whitebox_base_init
    by_cases h1 : error_type ∉ supported_agg_errors
    · rw [if_pos h1]
      exact ⟨rfl, ⟨_, rfl⟩⟩
    · have h2 : groupbyvars = [] := hbad.resolve_left h1
      rw [if_neg h1, if_pos h2]
      exact ⟨rfl, ⟨_, rfl⟩⟩
  · intro hbad
    unfold whitebox_sensitivity_init
    rw [if_pos hbad]
    exact ⟨rfl, ⟨_, rfl⟩⟩
  · intro hbad
    unfold run_engine
    rw [if_pos hbad]
    exact ⟨rfl, ⟨_, rfl⟩⟩

/-- Witness for C7 at the spec's own test vector: metric name FOO, no
groupby variables, `std_num = 5`, output type xml. -/
theorem config_errors_raised_before_data_witness :
    ((whitebox_base_init "FOO" [] "y" [] []).1 = [] ∧
      ∃ e, (whitebox_base_init "FOO" [] "y" [] []).2 = Except.error e) ∧
    ((whitebox_sensitivity_init 5 "FOO" [] "y" [] []).1 = [] ∧
      ∃ e, (whitebox_sensitivity_init 5 "FOO" [] "y" [] []).2 = Except.error e) ∧
    ((run_engine (fun m c => (c, m)) (fun _ _ df => ("", df)) (fun _ => "")
        "xml" ⟨[], [], "y", [], [], [], none⟩).1 = [] ∧
      ∃ e, (run_engine (fun m c => (c, m)) (fun _ _ df => ("", df)) (fun _ => "")
        "xml" ⟨[], [], "y", [], [], [], none⟩).2 = Except.error e) := by
  have h := config_errors_raised_before_data "FOO" [] "y" [] [] 5 "xml"
    (fun m c => (c, m)) (fun _ _ df => ("", df)) (fun _ => "")
    ⟨[], [], "y", [], [], [], none⟩
  exact ⟨h.1 (Or.inl (by decide)), h.2.1 (by decide), h.2.2 (by decide)⟩

/-- C9: Calling `get_raw_df` or `get_agg_df` on an instance whose
`outputs` attribute is absent (i.e. before `run` has completed) raises
the usage error, and on any state produced by a completed `run` both
calls succeed and return a dataframe. -/
theorem get_df_gated_on_run (s : WBState)
    (scoreFn : DfT ℚ → DfT Cell → DfT Cell × DfT ℚ)
    (varCheckFn : String → String → DfT Cell → String × DfT Cell)
    (accFn : String → String) (output_type : String) (s2 : WBState) :
    (s.outputs = none →
      get_raw_df s =
        Except.error "run() must be called before returning analysis data" ∧
      get_agg_df s =
        Except.error "run() must be called before returning analysis data") ∧
    ((run_engine scoreFn varCheckFn accFn output_type s).2 = Except.ok s2 →
      (∃ d, get_raw_df s2 = Except.ok d) ∧
      ∃ d, get_agg_df s2 = Except.ok d) := by
  constructor
  · intro hnone
    constructor
    · unfold get_raw_df
      rw [hnone]
      rfl
    · unfold get_agg_df
      rw [hnone]
      rfl
  · intro hrun
    unfold run_engine at hrun
    by_cases hout : output_type ∉ supported_out_types
    · rw [if_pos hout] at hrun
      exact Except.noConfusion hrun
    · rw [if_neg hout] at hrun
      dsimp only at hrun
      have hs2 := Except.ok.inj hrun
      subst hs2
      exact ⟨⟨_, rfl⟩, ⟨_, rfl⟩⟩

/-- Witness for C9: a fresh instance state rejects both getters, and the
state left by a completed run serves both. -/
theorem get_df_gated_on_run_witness :
    (get_raw_df ⟨[], [], "y", [], [], [], none⟩ =
        Except.error "run() must be called before returning analysis data" ∧
      get_agg_df ⟨[], [], "y", [], [], [], none⟩ =
        Except.error "run() must be called before returning analysis data") ∧
    ((∃ d, get_raw_df ⟨[], [], "y", [], [], [], some []⟩ = Except.ok d) ∧
      ∃ d, get_agg_df ⟨[], [], "y", [], [], [], some []⟩ = Except.ok d) := by
  have h := get_df_gated_on_run ⟨[], [], "y", [], [], [], none⟩
    (fun m c => (c, m)) (fun _ _ df => ("", df)) (fun _ => "") "html"
    ⟨[], [], "y", [], [], [], some []⟩
  exact ⟨h.1 rfl, h.2 rfl⟩

/-- C10: The `raw_df` and `agg_df` accumulators start empty at
construction and nothing `run` invokes appends to them (the only
appending methods, `fmt_raw_df` and `fmt_agg_df`, exist but are outside
the pipeline), so after any completed run both getters return a dataframe
with zero rows. -/
theorem accumulators_stay_empty (error_type : String)
    (groupbyvars : List String) (ydepend : String) (model_df : DfT ℚ)
    (cat_df : DfT Cell) (s s2 : WBState)
    (scoreFn : DfT ℚ → DfT Cell → DfT Cell × DfT ℚ)
    (varCheckFn : String → String → DfT Cell → String × DfT Cell)
    (accFn : String → String) (output_type : String)
    (hinit : (whitebox_base_init error_type groupbyvars ydepend model_df
        cat_df).2 = Except.ok s)
    (hrun : (run_engine scoreFn varCheckFn accFn output_type s).2 =
        Except.ok s2) :
    get_raw_df s2 = Except.ok [] ∧ get_agg_df s2 = Except.ok [] ∧
    ∀ (t : WBState) (rows : List (List ℚ)),
      (fmt_raw_df t rows).raw_df = t.raw_df ++ rows ∧
      (fmt_agg_df t rows).agg_df = t.agg_df ++ rows := by
  unfold whitebox_base_init at hinit
  by_cases h1 : error_type ∉ supported_agg_errors
  · rw [if_pos h1] at hinit
    exact Except.noConfusion hinit
  · rw [if_neg h1] at hinit
    by_cases h2 : groupbyvars = []
    · rw [if_pos h2] at hinit
      exact Except.noConfusion hinit
    · rw [if_neg h2] at hinit
      dsimp only at hinit
      have hs := Except.ok.inj hinit
      subst hs
      unfold run_engine at hrun
      by_cases h3 : output_type ∉ supported_out_types
      · rw [if_pos h3] at hrun
        exact Except.noConfusion hrun
      · rw [if_neg h3] at hrun
        dsimp only at hrun
        have hs2 := Except.ok.inj hrun
        subst hs2
        exact ⟨rfl, rfl, fun t rows => ⟨rfl, rfl⟩⟩

/-- Witness for C10: a concrete construction followed by a concrete
completed run leaves both accumulators with zero rows. -/
theorem accumulators_stay_empty_witness :
    get_raw_df ⟨[], [], "y", ["g"], [], [], some []⟩ = Except.ok [] ∧
    get_agg_df ⟨[], [], "y", ["g"], [], [], some []⟩ = Except.ok [] ∧
    ∀ (t : WBState) (rows : List (List ℚ)),
      (fmt_raw_df t rows).raw_df = t.raw_df ++ rows ∧
      (fmt_agg_df t rows).agg_df = t.agg_df ++ rows := by
  exact accumulators_stay_empty "MSE" ["g"] "y" [] []
    ⟨[], [], "y", ["g"], [], [], none⟩ ⟨[], [], "y", ["g"], [], [], some []⟩
    (fun m c => (c, m)) (fun _ _ df => ("", df)) (fun _ => "") "html"
    rfl rfl
